import Mathlib

/-!
Verification of the t-shirt-time storefront core against its specification.

The development shallowly embeds the two pieces of the repository that the
specification covers:

* `DatabaseStorage.createOrderWithStockUpdate` (server storage module): the
  order-placement transaction that validates stock for each requested line
  item, decrements inventory, and inserts the order row inside one database
  transaction that rolls back on any thrown error.  The database tables are
  modelled as in-memory lists of rows; the transaction wrapper is modelled by
  returning the unchanged state when the body throws.

* `client/src/lib/cart.ts`: the client cart helpers `addToCart` and
  `calculateCartTotals`.  The cart code runs on JavaScript numbers, so its
  arithmetic is IEEE-754 binary64; we model binary64 values as the exact
  rationals they denote and each arithmetic operation as the exact rational
  operation followed by round-to-nearest-even at 53 significant bits.  (The
  exponent is unbounded in the model; every value appearing in this
  development lies comfortably inside the normal range of binary64, where the
  model agrees with IEEE-754 exactly.)
-/

/-! ## Server data model

A row of the `products` table, restricted to the columns that
`createOrderWithStockUpdate` reads or writes.  `stockQuantity` is an integer
column; JavaScript numbers holding integral values are modelled as `Int`.
The `updatedAt := new Date()` write is not modelled (wall-clock time does not
affect any claim).
-/
structure Product where
  id : String
  name : String
  stockQuantity : Int
deriving DecidableEq, Repr

/-- One element of the `items` array passed to `createOrderWithStockUpdate`:
`{productId: string, quantity: number}`. -/
structure OrderItem where
  productId : String
  quantity : Int
deriving DecidableEq, Repr

/-- The errors thrown inside the transaction body.  The source throws
`Error` values carrying the message strings reproduced in `errMessage`
below; the constructors record the data interpolated into those strings. -/
inductive OrderError where
  | productNotFound (productId : String)
  | insufficientStock (name : String) (available : Int) (requested : Int)
deriving DecidableEq, Repr

/-- The exact message strings thrown by the source code, with the
constructor fields in the interpolation slots. -/
def errMessage : OrderError → String
  | .productNotFound pid => s!"Product not found: {pid}"
  | .insufficientStock name available requested =>
      s!"Insufficient stock for {name}. Available: {available}, Requested: {requested}"

/-- Whether an error is an "insufficient stock" failure. -/
def isInsufficientStockErr : OrderError → Bool
  | .insufficientStock .. => true
  | _ => false

/-- Whether an error is a "product not found" failure. -/
def isProductNotFoundErr : OrderError → Bool
  | .productNotFound _ => true
  | _ => false

/-- The query `SELECT ... FROM products WHERE eq(products.id, pid)`
destructured to its first row (`const [product] = ...`): the first product
whose `id` matches. -/
def findProduct (ps : List Product) (pid : String) : Option Product :=
  ps.find? (fun p => p.id == pid)

/-- The statement `UPDATE products SET stockQuantity = newQty WHERE
eq(products.id, pid)`: every row whose `id` matches gets the new stock
quantity. -/
def updateStock (ps : List Product) (pid : String) (newQty : Int) : List Product :=
  ps.map (fun p => if p.id == pid then { p with stockQuantity := newQty } else p)

/-- The body of the transaction's `for (const item of items)` loop, acting on
the `products` table: look the product up, throw if it is missing, throw if
`product.stockQuantity < item.quantity`, otherwise write back the decremented
stock and continue with the next item. -/
def applyItems (ps : List Product) : List OrderItem → Except OrderError (List Product)
  | [] => .ok ps
  | item :: rest =>
    match findProduct ps item.productId with
    | none => .error (.productNotFound item.productId)
    | some product =>
      if product.stockQuantity < item.quantity then
        .error (.insufficientStock product.name product.stockQuantity item.quantity)
      else
        applyItems (updateStock ps item.productId (product.stockQuantity - item.quantity)) rest

/-- The slice of database state the transaction touches: the `products` table
and the `orders` table.  The order payload type is a parameter `α` because
the transaction never inspects `orderData`; it only inserts it
(`tx.insert(orders).values(orderData).returning()`). -/
structure StoreState (α : Type) where
  products : List Product
  orders : List α
deriving DecidableEq, Repr

/-- The function `createOrderWithStockUpdate(orderData, items)`: run the validation /
decrement loop and the order insert inside `db.transaction`.  A thrown error
aborts the transaction, so the database state is returned unchanged together
with the error; on success the new products table, the appended order row,
and the returned row are produced. -/
def createOrderWithStockUpdate (st : StoreState α) (orderData : α) (items : List OrderItem) :
    StoreState α × Except OrderError α :=
  match applyItems st.products items with
  | .error e => (st, .error e)
  | .ok ps => ({ products := ps, orders := st.orders ++ [orderData] }, .ok orderData)

/-- Stock of the (first) product with the given id, if present. -/
def stockOf (ps : List Product) (pid : String) : Option Int :=
  (findProduct ps pid).map (fun p => p.stockQuantity)

/-- Total quantity requested for one product id across an items list. -/
def sumQty : List OrderItem → String → Int
  | [], _ => 0
  | it :: rest, pid => (if it.productId == pid then it.quantity else 0) + sumQty rest pid

/-- The columns of a product row that `createOrderWithStockUpdate` never
writes: its identity and name.  (The loop only writes `stockQuantity` and
`updatedAt`.) -/
def idName (p : Product) : String × String :=
  (p.id, p.name)

/-! ## Client cart model

`client/src/lib/cart.ts` runs on JavaScript numbers (IEEE-754 binary64).  A
binary64 value is modelled as the exact rational number it denotes,
represented as an explicit integer fraction (`Frac`, not kept in lowest
terms); `rnd` performs round-to-nearest, ties-to-even at 53 significant
bits, which is the rounding JavaScript applies to every arithmetic result
and to every numeric literal.  The exponent is left unbounded: all values in
this development are far from the overflow and subnormal thresholds, where
this model coincides with IEEE-754 binary64 exactly.
-/

/-- An exact rational `num / den` (`den` is always positive in this
development; fractions are not reduced). -/
structure Frac where
  num : Int
  den : Nat
deriving DecidableEq, Repr

/-- Value-level equality of fractions: `a.num / a.den = b.num / b.den` by
cross multiplication. -/
def fracEqv (a b : Frac) : Prop :=
  a.num * (b.den : Int) = b.num * (a.den : Int)

instance (a b : Frac) : Decidable (fracEqv a b) := by
  unfold fracEqv
  infer_instance

/-- Exact fraction addition. -/
def fracAdd (a b : Frac) : Frac :=
  ⟨a.num * (b.den : Int) + b.num * (a.den : Int), a.den * b.den⟩

/-- Exact fraction multiplication. -/
def fracMul (a b : Frac) : Frac :=
  ⟨a.num * b.num, a.den * b.den⟩

/-- Fuel-driven ⌊log₂⌋ on naturals (`natLog2 0 = natLog2 1 = 0`). -/
def log2Fuel : Nat → Nat → Nat
  | 0, _ => 0
  | fuel + 1, n => if n ≤ 1 then 0 else log2Fuel fuel (n / 2) + 1

/-- Integer part of log₂ n, for `n ≥ 1`. -/
def natLog2 (n : Nat) : Nat := log2Fuel n n

/-- Round `x / b` (with `b > 0`) to the nearest integer, ties to even. -/
def rhe (x : Int) (b : Nat) : Int :=
  let f := x.fdiv b
  let r := x - f * b
  if 2 * r < (b : Int) then f
  else if (b : Int) < 2 * r then f + 1
  else if f % 2 = 0 then f else f + 1

/-- Integer part of log₂ (a / b), for `a, b ≥ 1`. -/
def fracExp (a b : Nat) : Int :=
  let e0 : Int := (natLog2 a : Int) - (natLog2 b : Int)
  -- `a / b < 2 ^ e0` tested in integers
  let lt : Bool :=
    if 0 ≤ e0 then decide (a < b * 2 ^ e0.toNat) else decide (a * 2 ^ (-e0).toNat < b)
  if lt then e0 - 1 else e0

/-- Round the positive rational `a / b` to 53 significant binary digits,
nearest-ties-to-even: the result is the dyadic rational `m * 2 ^ (e - 52)`
where `2 ^ e ≤ a / b < 2 ^ (e + 1)` and `m` is the rounded 53-bit
significand. -/
def rndPos (a b : Nat) : Frac :=
  let k : Int := 52 - fracExp a b
  if 0 ≤ k then ⟨rhe ((a : Int) * (2 ^ k.toNat : Nat)) b, 2 ^ k.toNat⟩
  else ⟨rhe (a : Int) (b * 2 ^ (-k).toNat) * ((2 ^ (-k).toNat : Nat) : Int), 1⟩

/-- Binary64 rounding of an exact rational: round to nearest, ties to even,
53-bit significand, unbounded exponent. -/
def rnd (x : Frac) : Frac :=
  if x.num = 0 then ⟨0, 1⟩
  else if x.num < 0 then
    let r := rndPos (-x.num).toNat x.den
    ⟨-r.num, r.den⟩
  else rndPos x.num.toNat x.den

/-- Binary64 addition: exact sum, then one rounding. -/
def fadd (a b : Frac) : Frac := rnd (fracAdd a b)

/-- Binary64 multiplication: exact product, then one rounding. -/
def fmul (a b : Frac) : Frac := rnd (fracMul a b)

/-- The digits of a decimal string as a natural number. -/
def digitsToNat (cs : List Char) : Nat :=
  cs.foldl (fun n c => 10 * n + (c.toNat - '0'.toNat)) 0

/-- Exact rational value of a decimal literal `digits` or `digits.digits`
(the format of every `price` column value in this repository).  Returns
`none` on any other shape; `parseFloat`'s sign, exponent, and NaN handling
lies outside the inputs of this development. -/
def parseDecimal (s : String) : Option Frac :=
  match s.toList.splitOn '.' with
  | [intPart] =>
      if intPart ≠ [] ∧ intPart.all Char.isDigit then
        some ⟨(digitsToNat intPart : Int), 1⟩
      else none
  | [intPart, fracPart] =>
      if intPart ≠ [] ∧ fracPart ≠ [] ∧ intPart.all Char.isDigit ∧ fracPart.all Char.isDigit then
        some ⟨(digitsToNat intPart : Int) * ((10 ^ fracPart.length : Nat) : Int) +
                (digitsToNat fracPart : Int),
              10 ^ fracPart.length⟩
      else none
  | _ => none

/-- The `parseFloat` call on a well-formed decimal price string: the exact decimal
value rounded to binary64.  (Ill-formed strings, which give NaN in
JavaScript, are mapped to 0; none occur in this development.) -/
def parseFloat (s : String) : Frac :=
  match parseDecimal s with
  | some q => rnd q
  | none => ⟨0, 1⟩

/-- The columns of the client `Product` record that the cart helpers read:
the identity key used by `addToCart` and the decimal `price` string used by
`calculateCartTotals`. -/
structure CartProduct where
  id : String
  price : String
deriving DecidableEq, Repr

/-- One cart entry: `{product, size, color, quantity}`. -/
structure CartItem where
  product : CartProduct
  size : String
  color : String
  quantity : Int
deriving DecidableEq, Repr

/-- The constant `TAX_RATE = 0.085` — the binary64 value of the literal `0.085`. -/
def TAX_RATE : Frac := rnd ⟨85, 1000⟩

/-- The result record of `calculateCartTotals`. -/
structure CartTotals where
  subtotal : Frac
  tax : Frac
  total : Frac
deriving DecidableEq, Repr

/-- The function `calculateCartTotals(cart)`: `reduce`-style subtotal
(`sum + parseFloat(item.product.price) * item.quantity`, seeded with 0),
then `tax = subtotal * TAX_RATE` and `total = subtotal + tax`, every
operation in binary64. -/
def calculateCartTotals (cart : List CartItem) : CartTotals :=
  let subtotal := cart.foldl
    (fun sum item => fadd sum (fmul (parseFloat item.product.price) ⟨item.quantity, 1⟩)) ⟨0, 1⟩
  let tax := fmul subtotal TAX_RATE
  let total := fadd subtotal tax
  { subtotal := subtotal, tax := tax, total := total }

/-- The exact-decimal-arithmetic subtotal the specification describes: the
same sum of `price × quantity` per line, but in exact rational arithmetic
with no rounding at any step.  (Written from the specification's words for
comparison against `calculateCartTotals`.) -/
def exactDecimalSubtotal (cart : List CartItem) : Frac :=
  cart.foldl
    (fun sum item =>
      fracAdd sum (fracMul ((parseDecimal item.product.price).getD ⟨0, 1⟩) ⟨item.quantity, 1⟩))
    ⟨0, 1⟩

/-- The function `addToCart(product, size, color, quantity)` acting on the cart list it
loaded: `findIndex` of the first entry with the same
`(product.id, size, color)`; if one exists its quantity is incremented in
place, otherwise a fresh entry is pushed at the end.  (The surrounding
`localStorage` load/store and the `cart-updated` event are I/O plumbing
outside the model.) -/
def addToCart (cart : List CartItem) (product : CartProduct) (size color : String)
    (quantity : Int) : List CartItem :=
  match cart with
  | [] => [{ product := product, size := size, color := color, quantity := quantity }]
  | item :: rest =>
    if item.product.id == product.id ∧ item.size == size ∧ item.color == color then
      { item with quantity := item.quantity + quantity } :: rest
    else
      item :: addToCart rest product size color quantity

/-- The key a cart entry is identified by: `(productId, size, color)`. -/
def cartKey (item : CartItem) : String × String × String :=
  (item.product.id, item.size, item.color)

/-! ## Lemmas about the order transaction -/

set_option maxRecDepth 8000

lemma findProduct_eq_none (ps : List Product) (pid : String) :
    findProduct ps pid = none ↔ ∀ p ∈ ps, p.id ≠ pid := by
  simp [findProduct, List.find?_eq_none]

lemma findProduct_mem {ps : List Product} {pid : String} {p : Product}
    (h : findProduct ps pid = some p) : p ∈ ps ∧ p.id = pid := by
  refine ⟨List.mem_of_find?_eq_some h, ?_⟩
  have := List.find?_some h
  simpa using this

lemma findProduct_updateStock_ne {pid pid' : String} (hne : pid ≠ pid')
    (ps : List Product) (q : Int) :
    findProduct (updateStock ps pid' q) pid = findProduct ps pid := by
  induction ps with
  | nil => rfl
  | cons p rest ih =>
    by_cases hp : p.id == pid'
    · have hpid : p.id = pid' := by simpa using hp
      have hnp : (p.id == pid) = false := by
        simp [hpid]
        exact fun h => hne h.symm
      simp [updateStock, findProduct, hp, hnp, List.find?] at ih ⊢
      simpa [updateStock, findProduct] using ih
    · simp only [updateStock, List.map_cons, hp, Bool.false_eq_true, if_false] at *
      by_cases hq : p.id == pid
      · simp [findProduct, List.find?, hq]
      · simp [findProduct, List.find?, hq] at ih ⊢
        simpa [updateStock] using ih

lemma findProduct_updateStock_self {ps : List Product} {pid : String} {p : Product}
    (h : findProduct ps pid = some p) (q : Int) :
    findProduct (updateStock ps pid q) pid = some { p with stockQuantity := q } := by
  induction ps with
  | nil => simp [findProduct] at h
  | cons hd rest ih =>
    by_cases hq : hd.id == pid
    · simp [findProduct, List.find?, hq] at h
      subst h
      simp [updateStock, findProduct, List.find?, hq]
    · simp [findProduct, List.find?, hq] at h ih ⊢
      simp [updateStock] at ih ⊢
      exact ih h

lemma updateStock_map_idName (ps : List Product) (pid : String) (q : Int) :
    (updateStock ps pid q).map idName = ps.map idName := by
  unfold updateStock
  rw [List.map_map]
  apply List.map_congr_left
  intro p _
  by_cases hp : p.id == pid <;> simp [Function.comp, hp, idName]

lemma applyItems_ok_map_idName {ps ps' : List Product} {items : List OrderItem}
    (h : applyItems ps items = .ok ps') : ps'.map idName = ps.map idName := by
  induction items generalizing ps with
  | nil => simp [applyItems] at h; simp [h]
  | cons it rest ih =>
    rw [applyItems] at h
    cases hfind : findProduct ps it.productId with
    | none => simp [hfind] at h
    | some p =>
      simp only [hfind] at h
      by_cases hlt : p.stockQuantity < it.quantity
      · simp [hlt] at h
      · rw [if_neg hlt] at h
        calc ps'.map idName
            = (updateStock ps it.productId (p.stockQuantity - it.quantity)).map idName := ih h
          _ = ps.map idName := updateStock_map_idName ..

lemma findProduct_congr_idName {ps ps' : List Product}
    (h : ps.map idName = ps'.map idName) (pid : String) :
    Option.map idName (findProduct ps pid) = Option.map idName (findProduct ps' pid) := by
  induction ps generalizing ps' with
  | nil =>
    have : ps' = [] := by
      cases ps' with
      | nil => rfl
      | cons q t => simp at h
    simp [this]
  | cons p t ih =>
    cases ps' with
    | nil => simp at h
    | cons q t' =>
      simp only [List.map_cons, List.cons.injEq] at h
      obtain ⟨h1, h2⟩ := h
      have hid : p.id = q.id := congrArg Prod.fst h1
      by_cases hp : p.id == pid
      · have hq : (q.id == pid) = true := by rw [← hid]; exact hp
        simp [findProduct, List.find?, hp, hq, h1]
      · have hq : (q.id == pid) = false := by
          rw [show q.id = p.id from hid.symm]
          simpa using hp
        simp only [findProduct, List.find?, hp, hq] at *
        exact ih h2

lemma stockOf_updateStock_self {ps : List Product} {pid : String} {p : Product}
    (h : findProduct ps pid = some p) (q : Int) :
    stockOf (updateStock ps pid q) pid = some q := by
  simp [stockOf, findProduct_updateStock_self h]

lemma stockOf_updateStock_ne {pid pid' : String} (hne : pid ≠ pid')
    (ps : List Product) (q : Int) :
    stockOf (updateStock ps pid' q) pid = stockOf ps pid := by
  simp [stockOf, findProduct_updateStock_ne hne]

lemma sumQty_eq_zero_of_not_mem {items : List OrderItem} {pid : String}
    (h : pid ∉ items.map (fun it => it.productId)) : sumQty items pid = 0 := by
  induction items with
  | nil => rfl
  | cons it rest ih =>
    simp only [List.map_cons, List.mem_cons, not_or] at h
    have hne : (it.productId == pid) = false := by
      simp only [beq_eq_false_iff_ne, ne_eq]
      exact fun hh => h.1 hh.symm
    simp [sumQty, hne, ih h.2]

lemma applyItems_ok_stockOf {ps ps' : List Product} {items : List OrderItem}
    (h : applyItems ps items = .ok ps') (pid : String) :
    stockOf ps' pid = (stockOf ps pid).map (fun s => s - sumQty items pid) := by
  induction items generalizing ps with
  | nil =>
    simp [applyItems] at h
    subst h
    cases hs : stockOf ps pid <;> simp [sumQty, hs]
  | cons it rest ih =>
    rw [applyItems] at h
    cases hfind : findProduct ps it.productId with
    | none => simp [hfind] at h
    | some p =>
      simp only [hfind] at h
      by_cases hlt : p.stockQuantity < it.quantity
      · simp [hlt] at h
      · rw [if_neg hlt] at h
        have step := ih h
        by_cases hpid : it.productId = pid
        · subst hpid
          rw [stockOf_updateStock_self hfind] at step
          have hs : stockOf ps it.productId = some p.stockQuantity := by
            simp [stockOf, hfind]
          rw [hs, step]
          simp only [sumQty, beq_self_eq_true, if_true, Option.map_some', Option.some.injEq]
          ring
        · rw [stockOf_updateStock_ne (fun hh => hpid hh.symm) ps _] at step
          have hne : (it.productId == pid) = false := by simpa using hpid
          rw [step]
          simp [sumQty, hne]

lemma applyItems_ok_nonneg_touched {ps ps' : List Product} {items : List OrderItem}
    (h : applyItems ps items = .ok ps') :
    ∀ pid ∈ items.map (fun it => it.productId), ∃ s, stockOf ps' pid = some s ∧ 0 ≤ s := by
  induction items generalizing ps with
  | nil => simp
  | cons it rest ih =>
    rw [applyItems] at h
    cases hfind : findProduct ps it.productId with
    | none => simp [hfind] at h
    | some p =>
      simp only [hfind] at h
      by_cases hlt : p.stockQuantity < it.quantity
      · simp [hlt] at h
      · rw [if_neg hlt] at h
        intro pid hpid
        by_cases hmem : pid ∈ rest.map (fun it => it.productId)
        · exact ih h pid hmem
        · have hp : pid = it.productId := by
            simp only [List.map_cons, List.mem_cons] at hpid
            rcases hpid with hh | hh
            · exact hh
            · exact absurd hh hmem
          subst hp
          have step := applyItems_ok_stockOf h it.productId
          rw [stockOf_updateStock_self hfind, sumQty_eq_zero_of_not_mem hmem] at step
          refine ⟨p.stockQuantity - it.quantity, ?_, by omega⟩
          simpa using step

lemma updateStock_nonneg {ps : List Product} {pid : String} {q : Int}
    (h : ∀ p ∈ ps, 0 ≤ p.stockQuantity) (hq : 0 ≤ q) :
    ∀ p ∈ updateStock ps pid q, 0 ≤ p.stockQuantity := by
  intro p hp
  simp only [updateStock, List.mem_map] at hp
  obtain ⟨r, hr, hrp⟩ := hp
  by_cases hid : r.id == pid
  · rw [if_pos hid] at hrp
    rw [← hrp]
    exact hq
  · rw [if_neg (by simpa using hid)] at hrp
    rw [← hrp]
    exact h r hr

lemma applyItems_ok_nonneg {ps ps' : List Product} {items : List OrderItem}
    (h0 : ∀ p ∈ ps, 0 ≤ p.stockQuantity) (h : applyItems ps items = .ok ps') :
    ∀ p ∈ ps', 0 ≤ p.stockQuantity := by
  induction items generalizing ps with
  | nil =>
    simp [applyItems] at h
    subst h
    exact h0
  | cons it rest ih =>
    rw [applyItems] at h
    cases hfind : findProduct ps it.productId with
    | none => simp [hfind] at h
    | some p =>
      simp only [hfind] at h
      by_cases hlt : p.stockQuantity < it.quantity
      · simp [hlt] at h
      · rw [if_neg hlt] at h
        exact ih (updateStock_nonneg h0 (by omega)) h

lemma sumQty_nonneg {items : List OrderItem} {pid : String}
    (hq : ∀ it ∈ items, 0 ≤ it.quantity) : 0 ≤ sumQty items pid := by
  induction items with
  | nil => simp [sumQty]
  | cons it rest ih =>
    have h1 : 0 ≤ sumQty rest pid := ih (fun it' h => hq it' (List.mem_cons_of_mem _ h))
    have h2 : 0 ≤ it.quantity := hq it (List.mem_cons_self ..)
    rw [sumQty]
    split <;> omega

lemma le_sumQty_of_mem {items : List OrderItem} {it : OrderItem}
    (hq : ∀ it' ∈ items, 0 ≤ it'.quantity) (hmem : it ∈ items) :
    it.quantity ≤ sumQty items it.productId := by
  induction items with
  | nil => simp at hmem
  | cons a rest ih =>
    have hrest : ∀ it' ∈ rest, 0 ≤ it'.quantity :=
      fun it' h => hq it' (List.mem_cons_of_mem _ h)
    rcases List.mem_cons.mp hmem with hh | hh
    · subst hh
      have hnn : 0 ≤ sumQty rest it.productId := sumQty_nonneg hrest
      simp only [sumQty, beq_self_eq_true, if_true]
      omega
    · have h1 := ih hrest hh
      have h2 : (0 : Int) ≤ if a.productId == it.productId then a.quantity else 0 := by
        split
        · exact hq a (List.mem_cons_self ..)
        · exact le_refl 0
      rw [sumQty]
      omega

lemma findProduct_none_congr {ps ps' : List Product}
    (h : ps.map idName = ps'.map idName) (pid : String) :
    findProduct ps pid = none ↔ findProduct ps' pid = none := by
  have hc := findProduct_congr_idName h pid
  constructor <;> intro hh
  · rw [hh] at hc
    exact Option.map_eq_none'.mp hc.symm
  · rw [hh] at hc
    exact Option.map_eq_none'.mp hc

lemma findProduct_some_congr {ps ps' : List Product}
    (h : ps.map idName = ps'.map idName) {pid : String} {p' : Product}
    (hf : findProduct ps' pid = some p') :
    ∃ p, findProduct ps pid = some p ∧ p.name = p'.name := by
  have hc := findProduct_congr_idName h pid
  rw [hf] at hc
  cases hfind : findProduct ps pid with
  | none => rw [hfind] at hc; simp at hc
  | some p =>
    rw [hfind] at hc
    simp only [Option.map_some', Option.some.injEq] at hc
    exact ⟨p, rfl, congrArg Prod.snd hc⟩

lemma applyItems_error_shape {ps : List Product} {items : List OrderItem} {e : OrderError}
    (h : applyItems ps items = .error e) :
    (∃ it ∈ items, e = .productNotFound it.productId ∧ findProduct ps it.productId = none) ∨
    (∃ it ∈ items, ∃ p avail, findProduct ps it.productId = some p ∧
        e = .insufficientStock p.name avail it.quantity ∧ avail < it.quantity) := by
  induction items generalizing ps with
  | nil => simp [applyItems] at h
  | cons it rest ih =>
    rw [applyItems] at h
    cases hfind : findProduct ps it.productId with
    | none =>
      simp only [hfind, Except.error.injEq] at h
      exact Or.inl ⟨it, List.mem_cons_self .., h.symm, hfind⟩
    | some p =>
      simp only [hfind] at h
      by_cases hlt : p.stockQuantity < it.quantity
      · rw [if_pos hlt] at h
        simp only [Except.error.injEq] at h
        exact Or.inr ⟨it, List.mem_cons_self .., p, p.stockQuantity, hfind, h.symm, hlt⟩
      · rw [if_neg hlt] at h
        have hmap : ps.map idName =
            (updateStock ps it.productId (p.stockQuantity - it.quantity)).map idName :=
          (updateStock_map_idName ..).symm
        rcases ih h with ⟨it', hmem, he, hnone⟩ | ⟨it', hmem, p', avail, hfind', he, hlt'⟩
        · exact Or.inl ⟨it', List.mem_cons_of_mem _ hmem, he,
            (findProduct_none_congr hmap it'.productId).mpr hnone⟩
        · obtain ⟨q, hq, hname⟩ := findProduct_some_congr hmap hfind'
          exact Or.inr ⟨it', List.mem_cons_of_mem _ hmem, q, avail, hq,
            by rw [he, hname], hlt'⟩

lemma applyItems_ok_of_valid (ps : List Product) (items : List OrderItem)
    (hvalid : ∀ pre it post, items = pre ++ it :: post →
      ∃ psMid p, applyItems ps pre = .ok psMid ∧
        findProduct psMid it.productId = some p ∧ it.quantity ≤ p.stockQuantity) :
    ∃ ps', applyItems ps items = .ok ps' := by
  induction items generalizing ps with
  | nil => exact ⟨ps, rfl⟩
  | cons it rest ih =>
    obtain ⟨psMid, p, hrun, hfind, hle⟩ := hvalid [] it rest rfl
    have hmid : psMid = ps := by
      simpa [applyItems] using hrun.symm
    subst hmid
    have hstep : applyItems psMid (it :: rest) =
        applyItems (updateStock psMid it.productId (p.stockQuantity - it.quantity)) rest := by
      rw [applyItems, hfind]
      exact if_neg (by omega)
    rw [hstep]
    apply ih
    intro pre' it' post' hsplit
    obtain ⟨psMid', p', hrun', hfind', hle'⟩ :=
      hvalid (it :: pre') it' post' (by rw [hsplit]; rfl)
    refine ⟨psMid', p', ?_, hfind', hle'⟩
    rw [applyItems] at hrun'
    simp only [hfind] at hrun'
    rw [if_neg (show ¬ p.stockQuantity < it.quantity by omega)] at hrun'
    exact hrun'

lemma applyItems_error_of_missing (ps : List Product) (items : List OrderItem)
    (hnd : (items.map (fun it => it.productId)).Nodup)
    (hok : ∀ it ∈ items, ∀ p, findProduct ps it.productId = some p →
      it.quantity ≤ p.stockQuantity)
    (hmiss : ∃ it ∈ items, findProduct ps it.productId = none) :
    ∃ it ∈ items, findProduct ps it.productId = none ∧
      applyItems ps items = .error (.productNotFound it.productId) := by
  induction items generalizing ps with
  | nil => simp at hmiss
  | cons it rest ih =>
    cases hfind : findProduct ps it.productId with
    | none =>
      refine ⟨it, List.mem_cons_self .., hfind, ?_⟩
      rw [applyItems, hfind]
    | some p =>
      have hle := hok it (List.mem_cons_self ..) p hfind
      have hstep : applyItems ps (it :: rest) =
          applyItems (updateStock ps it.productId (p.stockQuantity - it.quantity)) rest := by
        rw [applyItems, hfind]
        exact if_neg (by omega)
      simp only [List.map_cons, List.nodup_cons] at hnd
      have hne : ∀ it' ∈ rest, it'.productId ≠ it.productId := by
        intro it' h' heq
        exact hnd.1 (heq ▸ List.mem_map_of_mem _ h')
      have hsame : ∀ it' ∈ rest,
          findProduct (updateStock ps it.productId (p.stockQuantity - it.quantity)) it'.productId =
          findProduct ps it'.productId :=
        fun it' h' => findProduct_updateStock_ne (hne it' h') ps _
      obtain ⟨itm, hmem, hmnone⟩ := hmiss
      have hmrest : itm ∈ rest := by
        rcases List.mem_cons.mp hmem with hh | hh
        · subst hh
          rw [hfind] at hmnone
          cases hmnone
        · exact hh
      obtain ⟨it'', hmem'', hnone'', herr''⟩ := ih
        (updateStock ps it.productId (p.stockQuantity - it.quantity)) hnd.2
        (fun it' h' p' hf => hok it' (List.mem_cons_of_mem _ h') p' (by rw [← hsame it' h']; exact hf))
        ⟨itm, hmrest, by rw [hsame itm hmrest]; exact hmnone⟩
      refine ⟨it'', List.mem_cons_of_mem _ hmem'', ?_, by rw [hstep]; exact herr''⟩
      rw [← hsame it'' hmem'']
      exact hnone''

/-! ## Lemmas about the cart -/

lemma addToCart_cons (item : CartItem) (rest : List CartItem) (product : CartProduct)
    (size color : String) (quantity : Int) :
    addToCart (item :: rest) product size color quantity =
      if cartKey item = (product.id, size, color) then
        { item with quantity := item.quantity + quantity } :: rest
      else item :: addToCart rest product size color quantity := by
  by_cases h1 : item.product.id = product.id <;>
    by_cases h2 : item.size = size <;>
    by_cases h3 : item.color = color <;>
    simp [addToCart, cartKey, Prod.ext_iff, h1, h2, h3]

lemma addToCart_of_not_mem {cart : List CartItem} {product : CartProduct}
    {size color : String} (quantity : Int)
    (h : (product.id, size, color) ∉ cart.map cartKey) :
    addToCart cart product size color quantity =
      cart ++ [{ product := product, size := size, color := color, quantity := quantity }] := by
  induction cart with
  | nil => rfl
  | cons item rest ih =>
    simp only [List.map_cons, List.mem_cons, not_or] at h
    rw [addToCart_cons, if_neg (fun hh => h.1 hh.symm), ih h.2]
    rfl

lemma addToCart_of_mem {cart : List CartItem} {product : CartProduct}
    {size color : String} (quantity : Int)
    (h : (product.id, size, color) ∈ cart.map cartKey) :
    ∃ pre entry post, cart = pre ++ entry :: post ∧
      cartKey entry = (product.id, size, color) ∧
      (product.id, size, color) ∉ pre.map cartKey ∧
      addToCart cart product size color quantity =
        pre ++ { entry with quantity := entry.quantity + quantity } :: post := by
  induction cart with
  | nil => simp at h
  | cons item rest ih =>
    by_cases hk : cartKey item = (product.id, size, color)
    · exact ⟨[], item, rest, rfl, hk, by simp, by rw [addToCart_cons, if_pos hk]; rfl⟩
    · have hmem : (product.id, size, color) ∈ rest.map cartKey := by
        rcases List.mem_cons.mp h with hh | hh
        · exact absurd hh.symm hk
        · exact hh
      obtain ⟨pre, entry, post, hsplit, hkey, hpre, hadd⟩ := ih hmem
      refine ⟨item :: pre, entry, post, by rw [hsplit]; rfl, hkey, ?_, ?_⟩
      · simp only [List.map_cons, List.mem_cons, not_or]
        exact ⟨fun hh => hk hh.symm, hpre⟩
      · rw [addToCart_cons, if_neg hk, hadd]
        rfl

lemma addToCart_map_cartKey_of_mem {cart : List CartItem} {product : CartProduct}
    {size color : String} (quantity : Int)
    (h : (product.id, size, color) ∈ cart.map cartKey) :
    (addToCart cart product size color quantity).map cartKey = cart.map cartKey := by
  obtain ⟨pre, entry, post, hsplit, hkey, _, hadd⟩ := addToCart_of_mem quantity h
  rw [hadd, hsplit]
  simp [cartKey]

lemma addToCart_nodup {cart : List CartItem} (product : CartProduct)
    (size color : String) (quantity : Int)
    (h : (cart.map cartKey).Nodup) :
    ((addToCart cart product size color quantity).map cartKey).Nodup := by
  by_cases hmem : (product.id, size, color) ∈ cart.map cartKey
  · rw [addToCart_map_cartKey_of_mem quantity hmem]
    exact h
  · rw [addToCart_of_not_mem quantity hmem]
    simp only [List.map_append, List.map_cons, List.map_nil]
    rw [List.nodup_append]
    refine ⟨h, List.nodup_singleton _, ?_⟩
    intro k hk
    simp only [List.mem_singleton]
    intro hh
    have hkk : k = (product.id, size, color) := by simpa [cartKey] using hh
    exact hmem (hkk ▸ hk)

lemma foldl_addToCart_nodup (ops : List (CartProduct × String × String × Int)) :
    ∀ cart : List CartItem, (cart.map cartKey).Nodup →
      ((ops.foldl (fun c op => addToCart c op.1 op.2.1 op.2.2.1 op.2.2.2) cart).map cartKey).Nodup := by
  induction ops with
  | nil => intro cart h; exact h
  | cons op rest ih =>
    intro cart h
    exact ih _ (addToCart_nodup op.1 op.2.1 op.2.2.1 op.2.2.2 h)

lemma createOrder_eq_error {α : Type} {st : StoreState α} {od : α} {items : List OrderItem}
    {e : OrderError} (happ : applyItems st.products items = .error e) :
    createOrderWithStockUpdate st od items = (st, .error e) := by
  unfold createOrderWithStockUpdate
  rw [happ]

lemma createOrder_eq_ok {α : Type} {st : StoreState α} {od : α} {items : List OrderItem}
    {ps' : List Product} (happ : applyItems st.products items = .ok ps') :
    createOrderWithStockUpdate st od items =
      ({ products := ps', orders := st.orders ++ [od] }, .ok od) := by
  unfold createOrderWithStockUpdate
  rw [happ]

/-! ## The claims -/

/-- C1: `createOrderWithStockUpdate` is all-or-nothing.  If the transaction
body throws (any item failing validation), the database state is unchanged:
no stock is mutated and no order row is inserted.  If it succeeds, every
product's stock is decremented by exactly the total quantity requested for
it and exactly one order row — the given payload — is appended and
returned. -/
theorem createOrder_all_or_nothing {α : Type} (st : StoreState α) (od : α)
    (items : List OrderItem) :
    (∀ st' e, createOrderWithStockUpdate st od items = (st', .error e) → st' = st) ∧
    (∀ st' o, createOrderWithStockUpdate st od items = (st', .ok o) →
      o = od ∧ st'.orders = st.orders ++ [od] ∧
      ∀ pid, stockOf st'.products pid =
        (stockOf st.products pid).map (fun s => s - sumQty items pid)) := by
  constructor
  · intro st' e h
    cases happ : applyItems st.products items with
    | error e' =>
      rw [createOrder_eq_error happ] at h
      simp only [Prod.mk.injEq] at h
      exact h.1.symm
    | ok ps' =>
      rw [createOrder_eq_ok happ] at h
      simp at h
  · intro st' o h
    cases happ : applyItems st.products items with
    | error e' =>
      rw [createOrder_eq_error happ] at h
      simp at h
    | ok ps' =>
      rw [createOrder_eq_ok happ] at h
      simp only [Prod.mk.injEq, Except.ok.injEq] at h
      obtain ⟨hst, ho⟩ := h
      subst hst
      exact ⟨ho.symm, rfl, applyItems_ok_stockOf happ⟩

/-- Witness for C1 at a concrete input: one product with stock 5, one item
requesting 2; the successful branch reports the appended order and the
decremented stock. -/
theorem createOrder_all_or_nothing_witness :
    "ord" = "ord" ∧
    (({ products := [⟨"p1", "Tee", 3⟩], orders := ["ord"] } : StoreState String)).orders =
      ([] : List String) ++ ["ord"] ∧
    stockOf [⟨"p1", "Tee", 3⟩] "p1" =
      (stockOf [⟨"p1", "Tee", 5⟩] "p1").map (fun s => s - sumQty [⟨"p1", 2⟩] "p1") := by
  have h := (createOrder_all_or_nothing
    (⟨[⟨"p1", "Tee", 5⟩], []⟩ : StoreState String) "ord" [⟨"p1", 2⟩]).2
    ⟨[⟨"p1", "Tee", 3⟩], ["ord"]⟩ "ord" rfl
  exact ⟨h.1, h.2.1, h.2.2 "p1"⟩

/-- C3: whenever every item passes its validation — at the point the loop
reaches it, its product exists and holds at least the requested quantity —
`createOrderWithStockUpdate` succeeds: each product's stock ends at its
initial stock minus the quantity requested for it (zero for untouched
products), and exactly one order row, the given payload, is appended and
returned.  The empty items list satisfies the hypothesis vacuously: the
validation loop is skipped, no stock changes, and the order is still
created. -/
theorem createOrder_valid_items_succeed {α : Type} (st : StoreState α) (od : α)
    (items : List OrderItem)
    (hvalid : ∀ pre it post, items = pre ++ it :: post →
      ∃ psMid p, applyItems st.products pre = .ok psMid ∧
        findProduct psMid it.productId = some p ∧ it.quantity ≤ p.stockQuantity) :
    ∃ ps', createOrderWithStockUpdate st od items =
        ({ products := ps', orders := st.orders ++ [od] }, .ok od) ∧
      ∀ pid, stockOf ps' pid =
        (stockOf st.products pid).map (fun s => s - sumQty items pid) := by
  obtain ⟨ps', happ⟩ := applyItems_ok_of_valid st.products items hvalid
  exact ⟨ps', createOrder_eq_ok happ, applyItems_ok_stockOf happ⟩

/-- Witness for C3 at a concrete input: a single-item order for 2 of a
product with stock 5 succeeds. -/
theorem createOrder_valid_items_succeed_witness :
    ∃ ps', createOrderWithStockUpdate
        (⟨[⟨"p1", "Tee", 5⟩], []⟩ : StoreState String) "ord" [⟨"p1", 2⟩] =
        ({ products := ps', orders := [] ++ ["ord"] }, .ok "ord") ∧
      ∀ pid, stockOf ps' pid =
        (stockOf [⟨"p1", "Tee", 5⟩] pid).map (fun s => s - sumQty [⟨"p1", 2⟩] pid) := by
  apply createOrder_valid_items_succeed
  intro pre it post h
  cases pre with
  | nil =>
    simp only [List.nil_append, List.cons.injEq] at h
    obtain ⟨h1, h2⟩ := h
    subst h1
    exact ⟨[⟨"p1", "Tee", 5⟩], ⟨"p1", "Tee", 5⟩, rfl, by decide, by decide⟩
  | cons a t =>
    simp only [List.cons_append, List.cons.injEq] at h
    exact absurd h.2 (by simp)

/-- C5: `createOrderWithStockUpdate` preserves the invariant that stock
quantities are non-negative: starting from a state in which every product's
`stockQuantity` is ≥ 0, after the call — whether it succeeds or fails —
every product's `stockQuantity` is still ≥ 0.  (The loop only writes
`stock - quantity` after checking `stock < quantity` is false, and a thrown
error rolls the transaction back.) -/
theorem stock_nonneg_invariant {α : Type} (st : StoreState α) (od : α)
    (items : List OrderItem) (h : ∀ p ∈ st.products, 0 ≤ p.stockQuantity) :
    ∀ p ∈ (createOrderWithStockUpdate st od items).1.products, 0 ≤ p.stockQuantity := by
  cases happ : applyItems st.products items with
  | error e =>
    rw [createOrder_eq_error happ]
    exact h
  | ok ps' =>
    rw [createOrder_eq_ok happ]
    exact applyItems_ok_nonneg h happ

/-- Witness for C5 at a concrete input: after buying 2 of 5, the remaining
row has non-negative stock. -/
theorem stock_nonneg_invariant_witness :
    0 ≤ (Product.mk "p1" "Tee" 3).stockQuantity :=
  stock_nonneg_invariant (⟨[⟨"p1", "Tee", 5⟩], []⟩ : StoreState String) "ord"
    [⟨"p1", 2⟩] (by decide) ⟨"p1", "Tee", 3⟩ (by decide)

/-- C10: items are validated cumulatively against the stock remaining after
the decrements of earlier items, so an items list that repeats a product id
can only succeed when the summed quantity for that id is at most its initial
stock — duplicates cannot oversell — and on failure nothing is committed. -/
theorem duplicate_items_cannot_oversell {α : Type} (st : StoreState α) (od : α)
    (items : List OrderItem) :
    (∀ st' o, createOrderWithStockUpdate st od items = (st', .ok o) →
      ∀ pid ∈ items.map (fun it => it.productId),
        ∃ s₀, stockOf st.products pid = some s₀ ∧ sumQty items pid ≤ s₀) ∧
    (∀ st' e, createOrderWithStockUpdate st od items = (st', .error e) → st' = st) := by
  constructor
  · intro st' o h pid hpid
    cases happ : applyItems st.products items with
    | error e =>
      rw [createOrder_eq_error happ] at h
      simp at h
    | ok ps' =>
      obtain ⟨s, hfin, hpos⟩ := applyItems_ok_nonneg_touched happ pid hpid
      have heq := applyItems_ok_stockOf happ pid
      rw [hfin] at heq
      cases hs : stockOf st.products pid with
      | none => rw [hs] at heq; simp at heq
      | some s₀ =>
        rw [hs] at heq
        simp only [Option.map_some', Option.some.injEq] at heq
        exact ⟨s₀, rfl, by omega⟩
  · intro st' e h
    cases happ : applyItems st.products items with
    | error e' =>
      rw [createOrder_eq_error happ] at h
      simp only [Prod.mk.injEq] at h
      exact h.1.symm
    | ok ps' =>
      rw [createOrder_eq_ok happ] at h
      simp at h

/-- Witness for C10 at a concrete input: the duplicated list
`[(p1, 2), (p1, 3)]` against stock 5 succeeds, and indeed its summed
quantity 5 is at most the initial stock 5. -/
theorem duplicate_items_cannot_oversell_witness :
    ∃ s₀, stockOf [⟨"p1", "Tee", 5⟩] "p1" = some s₀ ∧
      sumQty [⟨"p1", 2⟩, ⟨"p1", 3⟩] "p1" ≤ s₀ :=
  (duplicate_items_cannot_oversell
      (⟨[⟨"p1", "Tee", 5⟩], []⟩ : StoreState String) "ord" [⟨"p1", 2⟩, ⟨"p1", 3⟩]).1
    ⟨[⟨"p1", "Tee", 0⟩], ["ord"]⟩ "ord" rfl "p1" (by decide)

/-- C2 counterexample: the claim "every items list containing an item whose
quantity exceeds the stock of its existing product fails with an
insufficient-stock error" is false as stated — when an earlier item's
product is missing, the loop aborts with a product-not-found error first.
Here the list `[(missing, 1), (p1, 10)]` against stock 5 for `p1` contains
the overselling item `(p1, 10)`, yet the reported error is
`productNotFound "missing"`, not an insufficient-stock error. -/
theorem insufficient_stock_claim_cex :
    ((⟨"p1", 10⟩ : OrderItem) ∈ ([⟨"missing", 1⟩, ⟨"p1", 10⟩] : List OrderItem)) ∧
    findProduct [⟨"p1", "Tee", 5⟩] "p1" = some ⟨"p1", "Tee", 5⟩ ∧
    ((5 : Int) < 10) ∧
    (createOrderWithStockUpdate (⟨[⟨"p1", "Tee", 5⟩], []⟩ : StoreState String) "ord"
        [⟨"missing", 1⟩, ⟨"p1", 10⟩]).2 =
      .error (.productNotFound "missing") ∧
    isInsufficientStockErr (.productNotFound "missing") = false := by
  refine ⟨by decide, by decide, by decide, rfl, by decide⟩

/-- C2 (amended): for every items list all of whose product ids exist, with
non-negative quantities, containing some item whose requested quantity
exceeds its product's stock, `createOrderWithStockUpdate` fails with an
insufficient-stock error that carries the offending product's name and the
requested and available quantities (available < requested), the state is
unchanged (no stock mutation), and no order is persisted. -/
theorem insufficient_stock_aborts {α : Type} (st : StoreState α) (od : α)
    (items : List OrderItem)
    (hex : ∀ it ∈ items, ∃ p, findProduct st.products it.productId = some p)
    (hq : ∀ it ∈ items, 0 ≤ it.quantity)
    (hbad : ∃ it ∈ items, ∃ p, findProduct st.products it.productId = some p ∧
      p.stockQuantity < it.quantity) :
    ∃ e, createOrderWithStockUpdate st od items = (st, .error e) ∧
      ∃ it ∈ items, ∃ p avail, findProduct st.products it.productId = some p ∧
        e = .insufficientStock p.name avail it.quantity ∧ avail < it.quantity := by
  cases happ : applyItems st.products items with
  | ok ps' =>
    exfalso
    obtain ⟨it, hmem, p, hfind, hlt⟩ := hbad
    obtain ⟨s, hfin, hpos⟩ :=
      applyItems_ok_nonneg_touched happ it.productId (List.mem_map_of_mem _ hmem)
    have heq := applyItems_ok_stockOf happ it.productId
    rw [hfin] at heq
    have hs : stockOf st.products it.productId = some p.stockQuantity := by
      simp [stockOf, hfind]
    rw [hs] at heq
    simp only [Option.map_some', Option.some.injEq] at heq
    have hone := le_sumQty_of_mem hq hmem
    omega
  | error e =>
    rcases applyItems_error_shape happ with ⟨it, hmem, _, hnone⟩ | hshape
    · obtain ⟨p, hp⟩ := hex it hmem
      rw [hp] at hnone
      cases hnone
    · exact ⟨e, createOrder_eq_error happ, hshape⟩

/-- Witness for the amended C2 at a concrete input: one existing product
with stock 5, one item requesting 10. -/
theorem insufficient_stock_aborts_witness :
    ∃ e, createOrderWithStockUpdate
        (⟨[⟨"p1", "Tee", 5⟩], []⟩ : StoreState String) "ord" [⟨"p1", 10⟩] =
        (⟨[⟨"p1", "Tee", 5⟩], []⟩, .error e) ∧
      ∃ it ∈ ([⟨"p1", 10⟩] : List OrderItem), ∃ p avail,
        findProduct [⟨"p1", "Tee", 5⟩] it.productId = some p ∧
        e = .insufficientStock p.name avail it.quantity ∧ avail < it.quantity := by
  apply insufficient_stock_aborts
  · intro it h
    simp only [List.mem_singleton] at h
    subst h
    exact ⟨⟨"p1", "Tee", 5⟩, by decide⟩
  · decide
  · exact ⟨⟨"p1", 10⟩, by decide, ⟨"p1", "Tee", 5⟩, by decide, by decide⟩

/-- C6 counterexample: the claim "every items list containing a product id
that does not exist fails with a product-not-found error" is false as
stated — when an earlier item fails its stock check, the loop aborts with
an insufficient-stock error first.  Here `[(p1, 10), (missing, 1)]` against
stock 5 for `p1` contains the non-existent id `missing`, yet the reported
error is the insufficient-stock failure for `p1`. -/
theorem product_not_found_claim_cex :
    ((⟨"missing", 1⟩ : OrderItem) ∈ ([⟨"p1", 10⟩, ⟨"missing", 1⟩] : List OrderItem)) ∧
    findProduct [⟨"p1", "Tee", 5⟩] "missing" = none ∧
    (createOrderWithStockUpdate (⟨[⟨"p1", "Tee", 5⟩], []⟩ : StoreState String) "ord"
        [⟨"p1", 10⟩, ⟨"missing", 1⟩]).2 =
      .error (.insufficientStock "Tee" 5 10) ∧
    isProductNotFoundErr (.insufficientStock "Tee" 5 10) = false := by
  refine ⟨by decide, by decide, rfl, by decide⟩

/-- C6 (amended): for every items list with pairwise-distinct product ids,
all of whose items referencing existing products pass their stock checks,
containing some product id that does not exist,
`createOrderWithStockUpdate` fails with a product-not-found error naming a
missing product id from the list, the state is unchanged (no stock
mutation), and no order is persisted. -/
theorem product_not_found_aborts {α : Type} (st : StoreState α) (od : α)
    (items : List OrderItem)
    (hnd : (items.map (fun it => it.productId)).Nodup)
    (hok : ∀ it ∈ items, ∀ p, findProduct st.products it.productId = some p →
      it.quantity ≤ p.stockQuantity)
    (hmiss : ∃ it ∈ items, findProduct st.products it.productId = none) :
    ∃ e, createOrderWithStockUpdate st od items = (st, .error e) ∧
      ∃ it ∈ items, findProduct st.products it.productId = none ∧
        e = .productNotFound it.productId := by
  obtain ⟨it, hmem, hnone, herr⟩ :=
    applyItems_error_of_missing st.products items hnd hok hmiss
  exact ⟨.productNotFound it.productId, createOrder_eq_error herr, it, hmem, hnone, rfl⟩

/-- Witness for the amended C6 at a concrete input: a valid item for an
existing product followed by an item whose product id does not exist. -/
theorem product_not_found_aborts_witness :
    ∃ e, createOrderWithStockUpdate
        (⟨[⟨"p1", "Tee", 5⟩], []⟩ : StoreState String) "ord"
        [⟨"p1", 2⟩, ⟨"missing", 1⟩] =
        (⟨[⟨"p1", "Tee", 5⟩], []⟩, .error e) ∧
      ∃ it ∈ ([⟨"p1", 2⟩, ⟨"missing", 1⟩] : List OrderItem),
        findProduct [⟨"p1", "Tee", 5⟩] it.productId = none ∧
        e = .productNotFound it.productId := by
  apply product_not_found_aborts
  · decide
  · intro it h p hf
    rcases List.mem_cons.mp h with hh | hh
    · subst hh
      rw [show findProduct [⟨"p1", "Tee", 5⟩] (OrderItem.mk "p1" 2).productId =
          some ⟨"p1", "Tee", 5⟩ from by decide] at hf
      cases hf
      decide
    · simp only [List.mem_singleton] at hh
      subst hh
      rw [show findProduct [⟨"p1", "Tee", 5⟩] (OrderItem.mk "missing" 1).productId =
          none from by decide] at hf
      cases hf
  · exact ⟨⟨"missing", 1⟩, by decide, by decide⟩

/-- C7 counterexample: the claim that `calculateCartTotals` computes the
subtotal "using exact decimal arithmetic semantics (no binary floating-point
rounding drift)" is false — the function runs on binary64 numbers via
`parseFloat`.  For the cart `[{price "0.10", qty 1}, {price "0.20", qty 1}]`
the computed subtotal is the binary64 value `0.30000000000000004…`, which
differs from the exact decimal sum `0.30`. -/
theorem subtotal_not_exact_decimal_cex :
    ¬ fracEqv
      ((calculateCartTotals
        [⟨⟨"1", "0.10"⟩, "M", "Blue", 1⟩, ⟨⟨"2", "0.20"⟩, "M", "Blue", 1⟩]).subtotal)
      (exactDecimalSubtotal
        [⟨⟨"1", "0.10"⟩, "M", "Blue", 1⟩, ⟨⟨"2", "0.20"⟩, "M", "Blue", 1⟩]) := by
  decide

/-- C7 (amended): `calculateCartTotals` computes the subtotal in binary64
floating point, so it equals the exact decimal sum only up to binary64
rounding.  The specification's instances hold at binary64 precision: a
single item priced "29.99" with quantity 2 yields exactly the binary64
value of the literal `59.98` (which is not the exact decimal 59.98), and
the tax on subtotal 100.00 is exactly the decimal 8.50. -/
theorem calculateCartTotals_binary64_instances :
    fracEqv ((calculateCartTotals [⟨⟨"1", "29.99"⟩, "M", "Blue", 2⟩]).subtotal)
      (rnd ⟨5998, 100⟩) ∧
    ¬ fracEqv ((calculateCartTotals [⟨⟨"1", "29.99"⟩, "M", "Blue", 2⟩]).subtotal)
      ⟨5998, 100⟩ ∧
    fracEqv ((calculateCartTotals [⟨⟨"1", "100.00"⟩, "M", "Blue", 1⟩]).tax) ⟨85, 10⟩ := by
  refine ⟨by decide, by decide, by decide⟩

/-- C8: `calculateCartTotals` is a pure function of the cart list satisfying
`tax = subtotal * TAX_RATE` (the binary64 product with the 0.085 literal)
and `total = subtotal + tax` (binary64 sum) for every cart, and it returns
subtotal = tax = total = 0 on the empty cart. -/
theorem calculateCartTotals_formula :
    (∀ cart : List CartItem,
      (calculateCartTotals cart).tax = fmul (calculateCartTotals cart).subtotal TAX_RATE ∧
      (calculateCartTotals cart).total =
        fadd (calculateCartTotals cart).subtotal (calculateCartTotals cart).tax) ∧
    calculateCartTotals [] = ⟨⟨0, 1⟩, ⟨0, 1⟩, ⟨0, 1⟩⟩ := by
  exact ⟨fun cart => ⟨rfl, rfl⟩, by decide⟩

/-- C9: starting from the empty cart, any sequence of `addToCart` calls
leaves at most one entry per distinct `(productId, size, color)` triple, and
adding a combination already present increments that entry's quantity in
place instead of appending a duplicate entry. -/
theorem addToCart_unique_triples :
    (∀ ops : List (CartProduct × String × String × Int),
      ((ops.foldl (fun cart op => addToCart cart op.1 op.2.1 op.2.2.1 op.2.2.2) []).map
        cartKey).Nodup) ∧
    (∀ (cart : List CartItem) (product : CartProduct) (size color : String) (quantity : Int),
      (product.id, size, color) ∈ cart.map cartKey →
      ∃ pre entry post, cart = pre ++ entry :: post ∧
        cartKey entry = (product.id, size, color) ∧
        (product.id, size, color) ∉ pre.map cartKey ∧
        addToCart cart product size color quantity =
          pre ++ { entry with quantity := entry.quantity + quantity } :: post) := by
  constructor
  · intro ops
    exact foldl_addToCart_nodup ops [] (by simp)
  · intro cart product size color quantity h
    exact addToCart_of_mem quantity h

/-- Witness for C9 at a concrete input: adding 2 more of an existing
`(productId, size, color)` combination increments the entry in place. -/
theorem addToCart_unique_triples_witness :
    ∃ pre entry post,
      ([⟨⟨"1", "9.99"⟩, "M", "Blue", 1⟩] : List CartItem) = pre ++ entry :: post ∧
      cartKey entry = ("1", "M", "Blue") ∧
      ("1", "M", "Blue") ∉ pre.map cartKey ∧
      addToCart [⟨⟨"1", "9.99"⟩, "M", "Blue", 1⟩] ⟨"1", "9.99"⟩ "M" "Blue" 2 =
        pre ++ { entry with quantity := entry.quantity + 2 } :: post :=
  addToCart_unique_triples.2 [⟨⟨"1", "9.99"⟩, "M", "Blue", 1⟩] ⟨"1", "9.99"⟩ "M" "Blue" 2
    (by decide)

/-! ## Sanity anchors for the binary64 model

Concrete values of the rounding model against the well-known IEEE-754
binary64 constants: the doubles nearest 0.1, 0.2 and 0.3, the classic
`0.1 + 0.2 ≠ 0.3` drift with its tie-to-even rounding, and the double
nearest 0.085 (the `TAX_RATE` literal). -/

example : fracEqv (rnd ⟨1, 10⟩) ⟨3602879701896397, 2 ^ 55⟩ := by decide

example : fracEqv (rnd ⟨2, 10⟩) ⟨3602879701896397, 2 ^ 54⟩ := by decide

example : fracEqv (rnd ⟨3, 10⟩) ⟨5404319552844595, 2 ^ 54⟩ := by decide

example : fracEqv (fadd (rnd ⟨1, 10⟩) (rnd ⟨2, 10⟩)) ⟨5404319552844596, 2 ^ 54⟩ := by decide

example : fracEqv TAX_RATE ⟨6124895493223875, 2 ^ 56⟩ := by decide

example : parseFloat "29.99" = rnd ⟨2999, 100⟩ := by decide

example : fracEqv (parseFloat "100.00") ⟨100, 1⟩ := by decide
